import Mathlib

/-
Verification of the Minesweeper knowledge-based agent
(src/minesweeper/minesweeper.py).

The file shallowly embeds the two classes that the claims are about:

  * `Sentence` — a constraint "exactly `count` of the cells in `cells`
    are mines", with the mutators `mark_mine` / `mark_safe` and the
    queries `known_mines` / `known_safes`;
  * `MinesweeperAI` — the knowledge base, embedded as a record
    `AIState` plus one Lean function per Python method.

Python-specific semantics that the embedding must reproduce:

  * `Sentence.known_mines` / `known_safes` return the live set
    `self.cells` itself (no copy) when the condition holds.
  * In `MinesweeperAI.update_knowledge`, the loops
    `for cell in sentence.known_mines(): self.mark_mine(cell)` (and the
    `known_safes` twin) therefore iterate over the very set that
    `self.mark_mine` / `self.mark_safe` shrink: `self.mark_mine(cell)`
    calls `s.mark_mine(cell)` on every sentence in `self.knowledge`,
    including the sentence being iterated, which removes `cell` from the
    iterated set.  CPython set iterators check on every `next()` call —
    including the final one — whether the set changed size, and raise
    `RuntimeError: Set changed size during iteration` if it did.  Hence
    `update_knowledge` raises as soon as it meets a sentence whose
    `known_mines()` or `known_safes()` is non-empty (a "resolvable"
    sentence), after marking exactly one cell; if no sentence is
    resolvable the loop body never fires and only the final
    comprehension (dropping sentences with empty cell sets) runs.
    We embed this with `Except Unit`: `.error ()` is the raised
    `RuntimeError` (the partially mutated state is unobservable to the
    claims, all of which speak about states of completed calls).
  * `MinesweeperAI.infer_new_sentences` iterates `self.knowledge.copy()`
    in both loops.  The outer copy is taken once, at entry; the inner
    copy is re-taken for each outer element, so sentences appended
    during earlier outer iterations do occur as inner elements later.
    The membership test `inferred_sentence not in self.knowledge` is
    against the live, growing list.  Appending to a list while
    iterating copies of it is well-defined in Python, so this method
    never raises.
  * Python `!=`/`==`/`in` on sentences is the structural equality of
    `Sentence.__eq__` (same cell set, same count); we model a sentence
    as a value, so Lean equality coincides with it.
  * `random.choice(list(possible_moves))` draws an element of the set;
    the set's enumeration order is implementation defined, so we fix
    the row-major enumeration for `list(...)` and take the drawn index
    `k` (reduced mod the length) as an explicit parameter — the claims
    quantify over every random seed.
  * Likewise `for cell in self.safes` in `make_safe_move` walks the set
    in an implementation-defined order; the enumeration is a parameter.

Machine integers: Python integers are unbounded, so cell coordinates
are `ℤ` and sentence counts are `ℤ` (counts can go negative — one of
the claims is about exactly that).
-/

/-- A board cell, as the Python pair `(i, j)` of row and column. -/
abbrev Cell := ℤ × ℤ

/-- Embedding of class `Sentence`: a set of cells and a count.
Python's `__eq__` compares both fields, so Lean equality of values is
exactly the structural equality the source uses for `in` / `!=`. -/
structure Sentence where
  cells : Finset Cell
  count : ℤ
deriving DecidableEq

/-- `Sentence.known_mines`: the whole cell set if `count == len(cells)`,
else the empty set. -/
def Sentence.known_mines (s : Sentence) : Finset Cell :=
  if s.count = (s.cells.card : ℤ) then s.cells else ∅

/-- `Sentence.known_safes`: the whole cell set if `count == 0`,
else the empty set. -/
def Sentence.known_safes (s : Sentence) : Finset Cell :=
  if s.count = 0 then s.cells else ∅

/-- `Sentence.mark_mine`: if the cell is a member, remove it and
decrement the count; otherwise a no-op. -/
def Sentence.mark_mine (s : Sentence) (cell : Cell) : Sentence :=
  if cell ∈ s.cells then ⟨s.cells.erase cell, s.count - 1⟩ else s

/-- `Sentence.mark_safe`: if the cell is a member, remove it, leaving
the count unchanged; otherwise a no-op. -/
def Sentence.mark_safe (s : Sentence) (cell : Cell) : Sentence :=
  if cell ∈ s.cells then ⟨s.cells.erase cell, s.count⟩ else s

/-- The mutable attributes of a `MinesweeperAI` instance. -/
structure AIState where
  height : ℤ
  width : ℤ
  moves_made : Finset Cell
  mines : Finset Cell
  safes : Finset Cell
  knowledge : List Sentence
deriving DecidableEq

/-- `MinesweeperAI.__init__(height, width)`: empty sets, no knowledge. -/
def MinesweeperAI.initial (height width : ℤ) : AIState :=
  ⟨height, width, ∅, ∅, ∅, []⟩

/-- `MinesweeperAI.mark_mine`: add the cell to `self.mines` and call
`Sentence.mark_mine` on every sentence in `self.knowledge`. -/
def MinesweeperAI.mark_mine (st : AIState) (cell : Cell) : AIState :=
  { st with mines := insert cell st.mines,
            knowledge := st.knowledge.map (fun s => s.mark_mine cell) }

/-- `MinesweeperAI.mark_safe`: add the cell to `self.safes` and call
`Sentence.mark_safe` on every sentence in `self.knowledge`. -/
def MinesweeperAI.mark_safe (st : AIState) (cell : Cell) : AIState :=
  { st with safes := insert cell st.safes,
            knowledge := st.knowledge.map (fun s => s.mark_safe cell) }

/-- The eight `(di, dj)` offsets of the `range(-1, 2)` double loop,
`(0, 0)` excluded. -/
def neighborOffsets : List Cell :=
  [(-1, -1), (-1, 0), (-1, 1), (0, -1), (0, 1), (1, -1), (1, 0), (1, 1)]

/-- The candidate neighbors `(i + di, j + dj)` of a cell, before any
bounds or knowledge filtering. -/
def adjacentCells (cell : Cell) : Finset Cell :=
  (neighborOffsets.map (fun d => (cell.1 + d.1, cell.2 + d.2))).toFinset

/-- The in-bounds neighbors of a cell (the cells the double loop of
`Minesweeper.nearby_mines` visits, bounds check included). -/
def Minesweeper.nearbyCells (height width : ℤ) (cell : Cell) : Finset Cell :=
  (adjacentCells cell).filter
    (fun c => 0 ≤ c.1 ∧ c.1 < height ∧ 0 ≤ c.2 ∧ c.2 < width)

/-- `Minesweeper.nearby_mines`: the number of in-bounds neighbors of
`cell` that carry a mine, for a board whose mine set is `mineSet`. -/
def Minesweeper.nearby_mines (mineSet : Finset Cell) (height width : ℤ)
    (cell : Cell) : ℕ :=
  ((Minesweeper.nearbyCells height width cell).filter (fun c => c ∈ mineSet)).card

/-- Step 2 of `MinesweeperAI.add_knowledge`: the in-bounds neighbors of
`cell` not currently in `self.safes` and not in `self.mines`. -/
def MinesweeperAI.neighbors (st : AIState) (cell : Cell) : Finset Cell :=
  (adjacentCells cell).filter
    (fun n => (0 ≤ n.1 ∧ n.1 < st.height ∧ 0 ≤ n.2 ∧ n.2 < st.width) ∧
      n ∉ st.safes ∧ n ∉ st.mines)

/-- A sentence on which the resolution loop of `update_knowledge` would
fire: non-empty cell set with `known_mines()` or `known_safes()`
non-empty.  Iterating such a sentence raises `RuntimeError` in the
source (see the header comment). -/
def Sentence.resolvable (s : Sentence) : Prop :=
  s.cells ≠ ∅ ∧ (s.count = (s.cells.card : ℤ) ∨ s.count = 0)

instance (s : Sentence) : Decidable s.resolvable := by
  unfold Sentence.resolvable; infer_instance

/-- `MinesweeperAI.update_knowledge`.  If some sentence is resolvable,
the first such sentence's cell loop mutates the set it iterates and the
method raises `RuntimeError` (modelled as `.error ()`); otherwise the
loop performs no marking at all and the method only removes sentences
whose cell set is empty. -/
def MinesweeperAI.update_knowledge (st : AIState) : Except Unit AIState :=
  if st.knowledge.any (fun s => decide s.resolvable) then .error ()
  else .ok { st with knowledge := st.knowledge.filter (fun s => decide (s.cells ≠ ∅)) }

/-- The sentence `Sentence(sentence2.cells - sentence1.cells,
sentence2.count - sentence1.count)` built in `infer_new_sentences`. -/
def inferredFrom (s1 s2 : Sentence) : Sentence :=
  ⟨s2.cells \ s1.cells, s2.count - s1.count⟩

/-- The inner loop of `infer_new_sentences` for a fixed `sentence1`:
walk the inner snapshot `snap`, appending each derived sentence to the
live list `know` unless an equal sentence is already present. -/
def inferInner (s1 : Sentence) : List Sentence → List Sentence → List Sentence
  | [], know => know
  | s2 :: rest, know =>
      inferInner s1 rest
        (if s1 ≠ s2 ∧ s1.cells ⊆ s2.cells then
          (if inferredFrom s1 s2 ∈ know then know else know ++ [inferredFrom s1 s2])
         else know)

/-- The outer loop of `infer_new_sentences`: walk the entry snapshot
`outer`; for each element run the inner loop, whose snapshot is the
live list at that moment. -/
def inferOuter : List Sentence → List Sentence → List Sentence
  | [], know => know
  | s1 :: rest, know => inferOuter rest (inferInner s1 know know)

/-- `MinesweeperAI.infer_new_sentences`: only `self.knowledge` changes. -/
def MinesweeperAI.infer_new_sentences (st : AIState) : AIState :=
  { st with knowledge := inferOuter st.knowledge st.knowledge }

/-- `MinesweeperAI.add_knowledge(cell, count)`: record the move, mark
the cell safe, build the new sentence from the filtered neighbor set
and the reported count (appended unless an equal sentence exists), then
run one `update_knowledge` pass and — if it did not raise — one
`infer_new_sentences` pass. -/
def MinesweeperAI.add_knowledge (st : AIState) (cell : Cell) (count : ℤ) :
    Except Unit AIState :=
  let st1 := { st with moves_made := insert cell st.moves_made }
  let st2 := MinesweeperAI.mark_safe st1 cell
  let new_sentence : Sentence := ⟨MinesweeperAI.neighbors st2 cell, count⟩
  let st3 := if new_sentence ∈ st2.knowledge then st2
             else { st2 with knowledge := st2.knowledge ++ [new_sentence] }
  match MinesweeperAI.update_knowledge st3 with
  | .error e => .error e
  | .ok st4 => .ok (MinesweeperAI.infer_new_sentences st4)

/-- `MinesweeperAI.make_safe_move`: the first cell of `self.safes` (in
the set's enumeration order, a parameter here) not in
`self.moves_made`, or `None`.  The method performs no assignment, so
the state is returned unchanged. -/
def MinesweeperAI.make_safe_move (order : Finset Cell → List Cell)
    (st : AIState) : AIState × Option Cell :=
  (st, (order st.safes).find? (fun c => decide (c ∉ st.moves_made)))

/-- The comprehension `{(i, j) for i in range(self.height) for j in
range(self.width)}`, enumerated row-major. -/
def allCellsList (height width : ℤ) : List Cell :=
  (List.range height.toNat).flatMap
    (fun i => (List.range width.toNat).map (fun j => (Int.ofNat i, Int.ofNat j)))

/-- The set `all_cells - self.moves_made - self.mines`, as the list
`list(possible_moves)` that `random.choice` draws from (row-major
enumeration of the set). -/
def MinesweeperAI.possibleMoves (st : AIState) : List Cell :=
  (allCellsList st.height st.width).filter
    (fun c => decide (c ∉ st.moves_made ∧ c ∉ st.mines))

/-- `MinesweeperAI.make_random_move`: `None` when the possible-move set
is empty, otherwise the element of the set drawn by `random.choice`
(the draw is the index `k`, reduced mod the length).  The method
performs no assignment, so the state is returned unchanged. -/
def MinesweeperAI.make_random_move (k : ℕ) (st : AIState) :
    AIState × Option Cell :=
  let pm := MinesweeperAI.possibleMoves st
  (st, if h : pm.length = 0 then none
       else some (pm.get ⟨k % pm.length, Nat.mod_lt _ (Nat.pos_of_ne_zero h)⟩))

instance : DecidableEq (Except Unit AIState) := fun a b =>
  match a, b with
  | .error x, .error y => isTrue (by cases x; cases y; rfl)
  | .ok x, .ok y =>
      if h : x = y then isTrue (by rw [h]) else isFalse (fun hh => h (Except.ok.inj hh))
  | .error _, .ok _ => isFalse (fun hh => Except.noConfusion hh)
  | .ok _, .error _ => isFalse (fun hh => Except.noConfusion hh)

/-- A sentence is truthful for the mine set `M` when exactly `count` of
its cells lie in `M` — the semantic reading of a constraint. -/
def Sentence.TrueFor (M : Finset Cell) (s : Sentence) : Prop :=
  s.count = ((s.cells ∩ M).card : ℤ)

/-- The states reachable from a fresh `MinesweeperAI` through calls of
`add_knowledge` that return normally, with arbitrary (untrusted)
reported counts. -/
inductive Reachable : AIState → Prop
  | start (height width : ℤ) : Reachable (MinesweeperAI.initial height width)
  | step (st st' : AIState) (cell : Cell) (count : ℤ) :
      Reachable st →
      MinesweeperAI.add_knowledge st cell count = .ok st' →
      Reachable st'

/-- The states reachable from a fresh `MinesweeperAI` through calls of
`add_knowledge` that return normally and whose inputs are truthful for
a board with mine set `M`: the probed cell is not a mine and the
reported count is the board's `nearby_mines` answer. -/
inductive ReachableT (M : Finset Cell) : AIState → Prop
  | start (height width : ℤ) : ReachableT M (MinesweeperAI.initial height width)
  | step (st st' : AIState) (cell : Cell) (count : ℤ) :
      ReachableT M st →
      cell ∉ M →
      count = (Minesweeper.nearby_mines M st.height st.width cell : ℤ) →
      MinesweeperAI.add_knowledge st cell count = .ok st' →
      ReachableT M st'

/-- The truthfulness invariant carried through `ReachableT`: every
sentence is truthful for `M`, no known-safe cell is a mine, and the
known-mine set is empty (on non-raising paths `mark_mine` never runs). -/
def TruthInv (M : Finset Cell) (st : AIState) : Prop :=
  (∀ s ∈ st.knowledge, s.TrueFor M) ∧ (∀ x ∈ st.safes, x ∉ M) ∧ st.mines = ∅

/- Concrete states used by the claim theorems and witnesses. -/

/-- 2×2 board, `(0,0)` already known to be a mine, nothing else known. -/
def stC1 : AIState := ⟨2, 2, ∅, {((0:ℤ),(0:ℤ))}, ∅, []⟩

/-- The state `add_knowledge(stC1, (0,1), 1)` returns: the new sentence
keeps the unadjusted count `1` over `{(1,0),(1,1)}` even though the
known-mine neighbor `(0,0)` was dropped from its cell set. -/
def stC1' : AIState :=
  ⟨2, 2, {((0:ℤ),(1:ℤ))}, {((0:ℤ),(0:ℤ))}, {((0:ℤ),(1:ℤ))},
    [⟨{((1:ℤ),(0:ℤ)), ((1:ℤ),(1:ℤ))}, 1⟩]⟩

/-- The sentence `A = {(0,0),(0,1)} count=1` of the spec's scenario. -/
def sentA : Sentence := ⟨{((0:ℤ),(0:ℤ)), ((0:ℤ),(1:ℤ))}, 1⟩

/-- The sentence `B = {(0,0),(0,1),(0,2)} count=1` of the spec's scenario. -/
def sentB : Sentence := ⟨{((0:ℤ),(0:ℤ)), ((0:ℤ),(1:ℤ)), ((0:ℤ),(2:ℤ))}, 1⟩

/-- 5×5 board with the scenario sentences `A` and `B` in the knowledge
base and nothing else known. -/
def stC2 : AIState := ⟨5, 5, ∅, ∅, ∅, [sentA, sentB]⟩

/-- The state `add_knowledge(stC2, (4,4), 1)` returns: the subset
inference `{(0,2)} count=0` is appended as a sentence, but `(0,2)` is
not in `safes` — the resolution pass never sees it. -/
def stC2' : AIState :=
  ⟨5, 5, {((4:ℤ),(4:ℤ))}, ∅, {((4:ℤ),(4:ℤ))},
    [sentA, sentB,
     ⟨{((3:ℤ),(3:ℤ)), ((3:ℤ),(4:ℤ)), ((4:ℤ),(3:ℤ))}, 1⟩,
     ⟨{((0:ℤ),(2:ℤ))}, 0⟩]⟩

/-- Knowledge holding `{(0,0)} count=1` and `{(0,0),(0,1)} count=0`: a
subset pair whose derived count is `0 - 1 = -1`. -/
def stC3 : AIState :=
  ⟨2, 2, ∅, ∅, ∅,
    [⟨{((0:ℤ),(0:ℤ))}, 1⟩, ⟨{((0:ℤ),(0:ℤ)), ((0:ℤ),(1:ℤ))}, 0⟩]⟩

/-- The state the truthful call `add_knowledge((0,1), 1)` on a fresh
2×2 agent returns when the board's only mine is `(0,0)`. -/
def stC4 : AIState :=
  ⟨2, 2, {((0:ℤ),(1:ℤ))}, ∅, {((0:ℤ),(1:ℤ))},
    [⟨{((0:ℤ),(0:ℤ)), ((1:ℤ),(0:ℤ)), ((1:ℤ),(1:ℤ))}, 1⟩]⟩

/-- The state after `mark_safe((0,0))` followed by `mark_mine((0,0))`
on a fresh 2×2 agent: `(0,0)` is in both known-sets at once. -/
def stC5 : AIState :=
  MinesweeperAI.mark_mine
    (MinesweeperAI.mark_safe (MinesweeperAI.initial 2 2) ((0:ℤ),(0:ℤ))) ((0:ℤ),(0:ℤ))

/-- Preloaded sentence `{(0,0),(0,1)} count=1`. -/
def sentA6 : Sentence := ⟨{((0:ℤ),(0:ℤ)), ((0:ℤ),(1:ℤ))}, 1⟩

/-- Preloaded sentence `{(0,0),(0,1),(0,2),(0,3)} count=2`. -/
def sentB6 : Sentence :=
  ⟨{((0:ℤ),(0:ℤ)), ((0:ℤ),(1:ℤ)), ((0:ℤ),(2:ℤ)), ((0:ℤ),(3:ℤ))}, 2⟩

/-- Preloaded sentence `{(0,2),(0,3),(0,4),(0,5)} count=2`. -/
def sentV6 : Sentence :=
  ⟨{((0:ℤ),(2:ℤ)), ((0:ℤ),(3:ℤ)), ((0:ℤ),(4:ℤ)), ((0:ℤ),(5:ℤ))}, 2⟩

/-- 9×9 board preloaded with three unresolvable sentences. -/
def stC6 : AIState := ⟨9, 9, ∅, ∅, ∅, [sentA6, sentB6, sentV6]⟩

/-- The state after the first `add_knowledge(stC6, (8,8), 1)`: the
corner sentence is appended and the subset pair `(sentA6, sentB6)`
yields the derived sentence `{(0,2),(0,3)} count=1`. -/
def stC6a : AIState :=
  ⟨9, 9, {((8:ℤ),(8:ℤ))}, ∅, {((8:ℤ),(8:ℤ))},
    [sentA6, sentB6, sentV6,
     ⟨{((7:ℤ),(7:ℤ)), ((7:ℤ),(8:ℤ)), ((8:ℤ),(7:ℤ))}, 1⟩,
     ⟨{((0:ℤ),(2:ℤ)), ((0:ℤ),(3:ℤ))}, 1⟩]⟩

/-- The state after repeating the same call on `stC6a`: the sentence
derived in the first call is now an outer element of the inference
pass, its pair with `sentV6` derives `{(0,4),(0,5)} count=1`, and the
knowledge collection grows again. -/
def stC6b : AIState :=
  ⟨9, 9, {((8:ℤ),(8:ℤ))}, ∅, {((8:ℤ),(8:ℤ))},
    [sentA6, sentB6, sentV6,
     ⟨{((7:ℤ),(7:ℤ)), ((7:ℤ),(8:ℤ)), ((8:ℤ),(7:ℤ))}, 1⟩,
     ⟨{((0:ℤ),(2:ℤ)), ((0:ℤ),(3:ℤ))}, 1⟩,
     ⟨{((0:ℤ),(4:ℤ)), ((0:ℤ),(5:ℤ))}, 1⟩]⟩

/-- Knowledge holding two sentences with the same cell set and
different counts — the subset pair whose derived cell set is empty. -/
def stC7 : AIState :=
  ⟨2, 2, ∅, ∅, ∅, [⟨{((0:ℤ),(0:ℤ))}, 1⟩, ⟨{((0:ℤ),(0:ℤ))}, 2⟩]⟩

/-- 2×2 board where `(0,0)` was probed and `(1,1)` is a known mine:
the possible random moves are `(0,1)` and `(1,0)`. -/
def stC9 : AIState := ⟨2, 2, {((0:ℤ),(0:ℤ))}, {((1:ℤ),(1:ℤ))}, ∅, []⟩

/-- The sentence stored by `add_knowledge((1,1), 9)` on a fresh 3×3
agent: the eight neighbors of the center with the reported count `9`,
which exceeds the cell-set size. -/
def sentC4bad : Sentence :=
  ⟨{((0:ℤ),(0:ℤ)), ((0:ℤ),(1:ℤ)), ((0:ℤ),(2:ℤ)), ((1:ℤ),(0:ℤ)),
    ((1:ℤ),(2:ℤ)), ((2:ℤ),(0:ℤ)), ((2:ℤ),(1:ℤ)), ((2:ℤ),(2:ℤ))}, 9⟩

/-- The state `add_knowledge((1,1), 9)` on a fresh 3×3 agent returns. -/
def stC4bad : AIState :=
  ⟨3, 3, {((1:ℤ),(1:ℤ))}, ∅, {((1:ℤ),(1:ℤ))}, [sentC4bad]⟩

/- Helper lemmas about the inference loops: the knowledge list only
grows (append decomposition), membership is preserved, every subset
pair of the entry snapshot leaves its derived sentence in the result,
absence of duplicates is preserved, and truthfulness is preserved. -/

theorem inferInner_append (s1 : Sentence) (snap : List Sentence) :
    ∀ know, ∃ ext, inferInner s1 snap know = know ++ ext := by
  induction snap with
  | nil => exact fun know => ⟨[], (List.append_nil know).symm⟩
  | cons s2 rest ih =>
      intro know
      simp only [inferInner]
      split
      · split
        · exact ih know
        · obtain ⟨ext, hext⟩ := ih (know ++ [inferredFrom s1 s2])
          exact ⟨[inferredFrom s1 s2] ++ ext, by rw [hext, List.append_assoc]⟩
      · exact ih know

theorem inferInner_mem (s1 a : Sentence) (snap know : List Sentence)
    (h : a ∈ know) : a ∈ inferInner s1 snap know := by
  obtain ⟨ext, hext⟩ := inferInner_append s1 snap know
  rw [hext]
  exact List.mem_append_left _ h

theorem inferInner_derived (s1 s2 : Sentence) (hne : s1 ≠ s2)
    (hsub : s1.cells ⊆ s2.cells) (snap : List Sentence) :
    ∀ know, s2 ∈ snap → inferredFrom s1 s2 ∈ inferInner s1 snap know := by
  induction snap with
  | nil => intro know h; cases h
  | cons hd rest ih =>
      intro know hmem
      simp only [inferInner]
      rcases List.mem_cons.mp hmem with rfl | htail
      · rw [if_pos ⟨hne, hsub⟩]
        split
        · next hin => exact inferInner_mem _ _ _ _ hin
        · exact inferInner_mem _ _ _ _
            (List.mem_append_right _ (List.mem_singleton.mpr rfl))
      · exact ih _ htail

theorem inferInner_nodup (s1 : Sentence) (snap : List Sentence) :
    ∀ know, know.Nodup → (inferInner s1 snap know).Nodup := by
  induction snap with
  | nil => intro know h; exact h
  | cons hd rest ih =>
      intro know h
      simp only [inferInner]
      split
      · split
        · exact ih know h
        · next hnot =>
            refine ih _ (List.Nodup.append h (List.nodup_singleton _) ?_)
            intro a ha hmem
            rw [List.mem_singleton] at hmem
            subst hmem
            exact hnot ha
      · exact ih know h

theorem inferOuter_append (outer : List Sentence) :
    ∀ know, ∃ ext, inferOuter outer know = know ++ ext := by
  induction outer with
  | nil => exact fun know => ⟨[], (List.append_nil know).symm⟩
  | cons s1 rest ih =>
      intro know
      simp only [inferOuter]
      obtain ⟨e1, he1⟩ := inferInner_append s1 know know
      obtain ⟨e2, he2⟩ := ih (inferInner s1 know know)
      exact ⟨e1 ++ e2, by rw [he2, he1, List.append_assoc]⟩

theorem inferOuter_mem (a : Sentence) (outer know : List Sentence)
    (h : a ∈ know) : a ∈ inferOuter outer know := by
  obtain ⟨ext, hext⟩ := inferOuter_append outer know
  rw [hext]
  exact List.mem_append_left _ h

theorem inferOuter_derived (s1 s2 : Sentence) (hne : s1 ≠ s2)
    (hsub : s1.cells ⊆ s2.cells) (outer : List Sentence) :
    ∀ know, s1 ∈ outer → s2 ∈ know →
      inferredFrom s1 s2 ∈ inferOuter outer know := by
  induction outer with
  | nil => intro know h1 _; cases h1
  | cons hd rest ih =>
      intro know h1 h2
      simp only [inferOuter]
      rcases List.mem_cons.mp h1 with rfl | htail
      · exact inferOuter_mem _ _ _ (inferInner_derived s1 s2 hne hsub know know h2)
      · exact ih _ htail (inferInner_mem _ _ _ _ h2)

theorem inferOuter_nodup (outer : List Sentence) :
    ∀ know, know.Nodup → (inferOuter outer know).Nodup := by
  induction outer with
  | nil => intro know h; exact h
  | cons hd rest ih => intro know h; exact ih _ (inferInner_nodup hd know know h)

theorem trueFor_bounds (M : Finset Cell) (s : Sentence) (h : s.TrueFor M) :
    0 ≤ s.count ∧ s.count ≤ (s.cells.card : ℤ) := by
  rw [Sentence.TrueFor] at h
  have hle : (s.cells ∩ M).card ≤ s.cells.card :=
    Finset.card_le_card Finset.inter_subset_left
  omega

theorem inferredFrom_trueFor (M : Finset Cell) (s1 s2 : Sentence)
    (h1 : s1.TrueFor M) (h2 : s2.TrueFor M) (hsub : s1.cells ⊆ s2.cells) :
    (inferredFrom s1 s2).TrueFor M := by
  rw [Sentence.TrueFor] at h1 h2 ⊢
  show s2.count - s1.count = (((s2.cells \ s1.cells) ∩ M).card : ℤ)
  have hss : s1.cells ∩ M ⊆ s2.cells ∩ M :=
    Finset.inter_subset_inter hsub subset_rfl
  have hset : (s2.cells \ s1.cells) ∩ M = (s2.cells ∩ M) \ (s1.cells ∩ M) := by
    ext x
    simp only [Finset.mem_inter, Finset.mem_sdiff]
    tauto
  have hle : (s1.cells ∩ M).card ≤ (s2.cells ∩ M).card := Finset.card_le_card hss
  rw [hset, Finset.card_sdiff hss]
  omega

theorem mark_safe_trueFor (M : Finset Cell) (cell : Cell) (hc : cell ∉ M)
    (s : Sentence) (h : s.TrueFor M) : (s.mark_safe cell).TrueFor M := by
  rw [Sentence.mark_safe]
  split
  · rw [Sentence.TrueFor] at h ⊢
    show s.count = (((s.cells.erase cell) ∩ M).card : ℤ)
    have hset : s.cells.erase cell ∩ M = s.cells ∩ M := by
      ext x
      simp only [Finset.mem_inter, Finset.mem_erase]
      refine ⟨fun hx => ⟨hx.1.2, hx.2⟩, fun hx => ⟨⟨?_, hx.1⟩, hx.2⟩⟩
      rintro rfl
      exact hc hx.2
    rw [hset]
    exact h
  · exact h

theorem inferInner_trueFor (M : Finset Cell) (s1 : Sentence)
    (h1 : s1.TrueFor M) (snap : List Sentence) :
    ∀ know, (∀ x ∈ know, x.TrueFor M) → (∀ x ∈ snap, x.TrueFor M) →
      ∀ x ∈ inferInner s1 snap know, x.TrueFor M := by
  induction snap with
  | nil => intro know hk _ x hx; exact hk x hx
  | cons hd rest ih =>
      intro know hk hs
      simp only [inferInner]
      have hrest : ∀ x ∈ rest, x.TrueFor M :=
        fun x hx => hs x (List.mem_cons_of_mem _ hx)
      split
      · next hcond =>
          split
          · exact ih know hk hrest
          · refine ih _ ?_ hrest
            intro x hx
            rcases List.mem_append.mp hx with hx | hx
            · exact hk x hx
            · rw [List.mem_singleton] at hx
              subst hx
              exact inferredFrom_trueFor M s1 hd h1 (hs hd (List.mem_cons_self _ _)) hcond.2
      · exact ih know hk hrest

theorem inferOuter_trueFor (M : Finset Cell) (outer : List Sentence) :
    ∀ know, (∀ x ∈ know, x.TrueFor M) → (∀ x ∈ outer, x.TrueFor M) →
      ∀ x ∈ inferOuter outer know, x.TrueFor M := by
  induction outer with
  | nil => intro know hk _ x hx; exact hk x hx
  | cons hd rest ih =>
      intro know hk ho
      simp only [inferOuter]
      exact ih _
        (inferInner_trueFor M hd (ho hd (List.mem_cons_self _ _)) know know hk hk)
        (fun x hx => ho x (List.mem_cons_of_mem _ hx))

/- Dissection of a normally returning `add_knowledge` call. -/

theorem update_knowledge_ok (st st' : AIState)
    (h : MinesweeperAI.update_knowledge st = .ok st') :
    st' = { st with knowledge := st.knowledge.filter (fun s => decide (s.cells ≠ ∅)) } := by
  unfold MinesweeperAI.update_knowledge at h
  split at h
  · exact Except.noConfusion h
  · exact (Except.ok.inj h).symm

theorem add_knowledge_ok_decomp (st : AIState) (cell : Cell) (count : ℤ)
    (st' : AIState) (h : MinesweeperAI.add_knowledge st cell count = .ok st') :
    ∃ st3 st4 : AIState,
      (st3 = MinesweeperAI.mark_safe { st with moves_made := insert cell st.moves_made } cell ∨
        st3 = { MinesweeperAI.mark_safe { st with moves_made := insert cell st.moves_made } cell with
          knowledge :=
            (MinesweeperAI.mark_safe { st with moves_made := insert cell st.moves_made } cell).knowledge ++
              [⟨MinesweeperAI.neighbors
                  (MinesweeperAI.mark_safe { st with moves_made := insert cell st.moves_made } cell) cell,
                count⟩] }) ∧
      MinesweeperAI.update_knowledge st3 = .ok st4 ∧
      st' = MinesweeperAI.infer_new_sentences st4 := by
  simp only [MinesweeperAI.add_knowledge] at h
  split at h
  · exact Except.noConfusion h
  · next st4 heq =>
      refine ⟨_, st4, ?_, heq, (Except.ok.inj h).symm⟩
      split
      · exact Or.inl rfl
      · exact Or.inr rfl

theorem add_knowledge_ok_fields (st : AIState) (cell : Cell) (count : ℤ)
    (st' : AIState) (h : MinesweeperAI.add_knowledge st cell count = .ok st') :
    st'.height = st.height ∧ st'.width = st.width ∧
    st'.moves_made = insert cell st.moves_made ∧
    st'.safes = insert cell st.safes ∧
    st'.mines = st.mines := by
  obtain ⟨st3, st4, hst3, hup, hst'⟩ := add_knowledge_ok_decomp st cell count st' h
  have h4 := update_knowledge_ok st3 st4 hup
  subst hst' h4
  rcases hst3 with rfl | rfl <;>
    simp [MinesweeperAI.infer_new_sentences, MinesweeperAI.mark_safe]

theorem add_knowledge_ok_knowledge (st : AIState) (cell : Cell) (count : ℤ)
    (st' : AIState) (h : MinesweeperAI.add_knowledge st cell count = .ok st') :
    ∃ K : List Sentence,
      st'.knowledge = inferOuter K K ∧
      ∀ x ∈ K, x ∈ st.knowledge.map (fun s => s.mark_safe cell) ∨
        x = ⟨MinesweeperAI.neighbors
              (MinesweeperAI.mark_safe
                { st with moves_made := insert cell st.moves_made } cell) cell,
            count⟩ := by
  obtain ⟨st3, st4, hst3, hup, hst'⟩ := add_knowledge_ok_decomp st cell count st' h
  have h4 := update_knowledge_ok st3 st4 hup
  subst hst' h4
  refine ⟨st3.knowledge.filter (fun s => decide (s.cells ≠ ∅)), rfl, ?_⟩
  intro x hx
  have hx3 : x ∈ st3.knowledge := List.mem_of_mem_filter hx
  rcases hst3 with rfl | rfl
  · exact Or.inl hx3
  · rcases List.mem_append.mp hx3 with hx4 | hx4
    · exact Or.inl hx4
    · right
      rw [List.mem_singleton] at hx4
      exact hx4

/- Truthfulness of the sentence built by `add_knowledge` and
preservation of the invariant through a normally returning call. -/

theorem neighbors_inter_eq (st : AIState) (cell : Cell) (M : Finset Cell)
    (hs : ∀ x ∈ st.safes, x ∉ M) (hm : st.mines = ∅) :
    MinesweeperAI.neighbors st cell ∩ M =
      (Minesweeper.nearbyCells st.height st.width cell).filter (fun c => c ∈ M) := by
  ext x
  constructor
  · intro hx
    obtain ⟨hn, hM⟩ := Finset.mem_inter.mp hx
    rw [MinesweeperAI.neighbors, Finset.mem_filter] at hn
    rw [Finset.mem_filter, Minesweeper.nearbyCells, Finset.mem_filter]
    exact ⟨⟨hn.1, hn.2.1⟩, hM⟩
  · intro hx
    rw [Finset.mem_filter, Minesweeper.nearbyCells, Finset.mem_filter] at hx
    obtain ⟨⟨hadj, hb⟩, hM⟩ := hx
    rw [Finset.mem_inter, MinesweeperAI.neighbors, Finset.mem_filter]
    refine ⟨⟨hadj, hb, fun hsx => hs x hsx hM, ?_⟩, hM⟩
    rw [hm]
    exact Finset.not_mem_empty x

theorem add_knowledge_preserves_truthInv (M : Finset Cell) (st : AIState)
    (cell : Cell) (count : ℤ) (st' : AIState)
    (hInv : TruthInv M st) (hcell : cell ∉ M)
    (hcount : count = (Minesweeper.nearby_mines M st.height st.width cell : ℤ))
    (h : MinesweeperAI.add_knowledge st cell count = .ok st') :
    TruthInv M st' := by
  obtain ⟨hknow, hsafes, hmines⟩ := hInv
  obtain ⟨_, _, _, hsf, hmn⟩ := add_knowledge_ok_fields st cell count st' h
  obtain ⟨K, hK, hKmem⟩ := add_knowledge_ok_knowledge st cell count st' h
  have hs2 : ∀ x ∈ (MinesweeperAI.mark_safe
      { st with moves_made := insert cell st.moves_made } cell).safes, x ∉ M := by
    intro x hx
    rcases Finset.mem_insert.mp hx with rfl | hx
    · exact hcell
    · exact hsafes x hx
  have hm2 : (MinesweeperAI.mark_safe
      { st with moves_made := insert cell st.moves_made } cell).mines = ∅ := hmines
  refine ⟨?_, ?_, ?_⟩
  · have hKtrue : ∀ x ∈ K, x.TrueFor M := by
      intro x hx
      rcases hKmem x hx with hmap | rfl
      · obtain ⟨t, ht, rfl⟩ := List.mem_map.mp hmap
        exact mark_safe_trueFor M cell hcell t (hknow t ht)
      · have hset := neighbors_inter_eq
          (MinesweeperAI.mark_safe { st with moves_made := insert cell st.moves_made } cell)
          cell M hs2 hm2
        show count = ((MinesweeperAI.neighbors
          (MinesweeperAI.mark_safe
            { st with moves_made := insert cell st.moves_made } cell) cell ∩ M).card : ℤ)
        rw [hcount, hset]
        rfl
    intro x hx
    rw [hK] at hx
    exact inferOuter_trueFor M K K hKtrue hKtrue x hx
  · rw [hsf]
    intro x hx
    rcases Finset.mem_insert.mp hx with rfl | hx
    · exact hcell
    · exact hsafes x hx
  · rw [hmn]
    exact hmines

theorem reachableT_truthInv (M : Finset Cell) (st : AIState)
    (h : ReachableT M st) : TruthInv M st := by
  induction h with
  | start height width =>
      refine ⟨?_, ?_, rfl⟩ <;> simp [MinesweeperAI.initial]
  | step st st' cell count hr hcell hcount hok ih =>
      exact add_knowledge_preserves_truthInv M st cell count st' ih hcell hcount hok

theorem reachable_mines_empty (st : AIState) (h : Reachable st) :
    st.mines = ∅ := by
  induction h with
  | start height width => rfl
  | step st st' cell count hr hok ih =>
      obtain ⟨_, _, _, _, hmn⟩ := add_knowledge_ok_fields st cell count st' hok
      rw [hmn, ih]

/- Helper lemmas for the move selectors. -/

theorem mem_allCellsList (height width : ℤ) (c : Cell) :
    c ∈ allCellsList height width ↔
      0 ≤ c.1 ∧ c.1 < height ∧ 0 ≤ c.2 ∧ c.2 < width := by
  rw [allCellsList]
  constructor
  · intro hc
    rw [List.mem_flatMap] at hc
    obtain ⟨i, hi, hc⟩ := hc
    rw [List.mem_map] at hc
    obtain ⟨j, hj, hc⟩ := hc
    rw [List.mem_range] at hi hj
    subst hc
    refine ⟨?_, ?_, ?_, ?_⟩
    · show (0:ℤ) ≤ (i:ℤ)
      omega
    · show (i:ℤ) < height
      omega
    · show (0:ℤ) ≤ (j:ℤ)
      omega
    · show (j:ℤ) < width
      omega
  · intro h
    rw [List.mem_flatMap]
    refine ⟨c.1.toNat, ?_, ?_⟩
    · rw [List.mem_range]
      omega
    · rw [List.mem_map]
      refine ⟨c.2.toNat, ?_, ?_⟩
      · rw [List.mem_range]
        omega
      · show ((c.1.toNat : ℤ), (c.2.toNat : ℤ)) = c
        have h1 : (c.1.toNat : ℤ) = c.1 := Int.toNat_of_nonneg h.1
        have h2 : (c.2.toNat : ℤ) = c.2 := Int.toNat_of_nonneg h.2.2.1
        rw [h1, h2]

theorem mem_possibleMoves (st : AIState) (c : Cell) :
    c ∈ MinesweeperAI.possibleMoves st ↔
      c ∈ allCellsList st.height st.width ∧ c ∉ st.moves_made ∧ c ∉ st.mines := by
  rw [MinesweeperAI.possibleMoves]
  simp [List.mem_filter]

theorem make_random_move_none_iff (st : AIState) (k : ℕ) :
    (MinesweeperAI.make_random_move k st).2 = none ↔
      MinesweeperAI.possibleMoves st = [] := by
  simp only [MinesweeperAI.make_random_move]
  split
  · next h0 => simp [List.length_eq_zero.mp h0]
  · next h0 =>
      constructor
      · intro hc
        cases hc
      · intro hnil
        exact absurd (by rw [hnil]; rfl) h0

/- Claim theorems. -/

/-- C1: the claim says `add_knowledge` subtracts the number of
known-mine neighbors from the reported count before storing the new
sentence.  The code only filters those neighbors out of the cell set
and stores the reported count unchanged: on a 2×2 board with `(0,0)`
a known mine, `add_knowledge((0,1), 1)` stores the sentence
`{(1,0),(1,1)}` with count `1`, although the cell `(0,1)` has exactly
one known-mine neighbor, so the claim demands count `1 - 1 = 0`. -/
theorem C1_new_sentence_count_unadjusted :
    MinesweeperAI.add_knowledge stC1 ((0:ℤ),(1:ℤ)) 1 = .ok stC1' ∧
    stC1'.knowledge = [⟨{((1:ℤ),(0:ℤ)), ((1:ℤ),(1:ℤ))}, 1⟩] ∧
    (Minesweeper.nearbyCells 2 2 ((0:ℤ),(1:ℤ)) ∩ stC1.mines).card = 1 ∧
    ¬((1:ℤ) = 1 - 1) := by decide

/-- C2: the claim says `add_knowledge` propagates to a fixpoint, and in
the scenario with sentences `A = {(0,0),(0,1)}=1` and
`B = {(0,0),(0,1),(0,2)}=1`, `(0,2)` is known-safe when the call
returns.  The code runs exactly one resolution pass followed by one
inference pass: the call returns with the derived sentence
`{(0,2)}=0` merely appended, `(0,2)` not in `safes`, and one further
resolution pass does not leave the state unchanged — it raises
(`.error ()`), because the derived sentence is resolvable and its cell
loop mutates the set it iterates. -/
theorem C2_no_fixpoint_before_return :
    MinesweeperAI.add_knowledge stC2 ((4:ℤ),(4:ℤ)) 1 = .ok stC2' ∧
    ((0:ℤ),(2:ℤ)) ∉ stC2'.safes ∧
    (⟨{((0:ℤ),(2:ℤ))}, 0⟩ : Sentence) ∈ stC2'.knowledge ∧
    MinesweeperAI.update_knowledge stC2' = .error () := by decide

/-- C3 (counterexample): `infer_new_sentences` has no negativity check.
From `{(0,0)}=1` and `{(0,0),(0,1)}=0` it stores the derived sentence
`{(0,1)} = -1`, so the collection after the pass does contain a
sentence with negative count. -/
theorem C3_negative_count_stored :
    (⟨{((0:ℤ),(1:ℤ))}, -1⟩ : Sentence) ∈
      (MinesweeperAI.infer_new_sentences stC3).knowledge ∧
    (⟨{((0:ℤ),(1:ℤ))}, -1⟩ : Sentence).count < 0 := by decide

/-- C3 (amended): `infer_new_sentences` never discards a derived
sentence because of its count: for every pair of distinct sentences of
the entry collection with `s1.cells ⊆ s2.cells`, the derived sentence
`(s2.cells - s1.cells, s2.count - s1.count)` is in the collection
after the pass — it is appended unless an equal sentence is already
present, whatever the sign of the derived count. -/
theorem C3_inferred_sentence_always_kept (st : AIState) (s1 s2 : Sentence)
    (h1 : s1 ∈ st.knowledge) (h2 : s2 ∈ st.knowledge) (hne : s1 ≠ s2)
    (hsub : s1.cells ⊆ s2.cells) :
    inferredFrom s1 s2 ∈ (MinesweeperAI.infer_new_sentences st).knowledge :=
  inferOuter_derived s1 s2 hne hsub st.knowledge st.knowledge h1 h2

/-- Witness for C3: the negative-count derivation of `stC3` is kept. -/
theorem C3_inferred_sentence_always_kept_witness :
    inferredFrom ⟨{((0:ℤ),(0:ℤ))}, 1⟩ ⟨{((0:ℤ),(0:ℤ)), ((0:ℤ),(1:ℤ))}, 0⟩ ∈
      (MinesweeperAI.infer_new_sentences stC3).knowledge :=
  C3_inferred_sentence_always_kept stC3
    ⟨{((0:ℤ),(0:ℤ))}, 1⟩ ⟨{((0:ℤ),(0:ℤ)), ((0:ℤ),(1:ℤ))}, 0⟩
    (by decide) (by decide) (by decide) (by decide)

/-- C4 (counterexample): with an arbitrary (untrusted) reported count
the invariant `0 ≤ count ≤ |cells|` fails in a reachable state:
`add_knowledge((1,1), 9)` on a fresh 3×3 agent returns normally and
stores a sentence whose count `9` exceeds its 8-element cell set. -/
theorem C4_count_exceeds_cells :
    MinesweeperAI.add_knowledge (MinesweeperAI.initial 3 3) ((1:ℤ),(1:ℤ)) 9 =
      .ok stC4bad ∧
    sentC4bad ∈ stC4bad.knowledge ∧
    (sentC4bad.cells.card : ℤ) < sentC4bad.count := by decide

/-- C4 (amended): the invariant `0 ≤ count ≤ |cells|` holds for every
sentence of every state reachable through `add_knowledge` calls whose
inputs are truthful for a fixed mine set `M`: the probed cell is not a
mine and the reported count is the board's `nearby_mines` answer. -/
theorem C4_truthful_reachable_count_bounds (M : Finset Cell) (st : AIState)
    (h : ReachableT M st) :
    ∀ s ∈ st.knowledge, 0 ≤ s.count ∧ s.count ≤ (s.cells.card : ℤ) :=
  fun s hs => trueFor_bounds M s ((reachableT_truthInv M st h).1 s hs)

/-- Witness for C4: the state reached by the truthful call
`add_knowledge((0,1), 1)` on a fresh 2×2 agent whose board has its
only mine at `(0,0)`. -/
theorem C4_truthful_reachable_count_bounds_witness :
    0 ≤ (Sentence.mk {((0:ℤ),(0:ℤ)), ((1:ℤ),(0:ℤ)), ((1:ℤ),(1:ℤ))} 1).count ∧
    (Sentence.mk {((0:ℤ),(0:ℤ)), ((1:ℤ),(0:ℤ)), ((1:ℤ),(1:ℤ))} 1).count ≤
      ((Sentence.mk {((0:ℤ),(0:ℤ)), ((1:ℤ),(0:ℤ)), ((1:ℤ),(1:ℤ))} 1).cells.card : ℤ) :=
  C4_truthful_reachable_count_bounds {((0:ℤ),(0:ℤ))} stC4
    (ReachableT.step (MinesweeperAI.initial 2 2) stC4 ((0:ℤ),(1:ℤ)) 1
      (ReachableT.start 2 2) (by decide) (by decide) (by decide))
    (Sentence.mk {((0:ℤ),(0:ℤ)), ((1:ℤ),(0:ℤ)), ((1:ℤ),(1:ℤ))} 1) (by decide)

/-- C5 (counterexample): the known-safe and known-mine sets are NOT
disjoint for every sequence of `add_knowledge`, `mark_safe`, and
`mark_mine` calls: `mark_safe((0,0))` followed by `mark_mine((0,0))`
puts `(0,0)` in both sets — neither mutator checks the other set. -/
theorem C5_safe_then_mine_overlap : stC5.safes ∩ stC5.mines ≠ ∅ := by decide

/-- C5 (amended): `safes ∩ mines = ∅` does hold in every state
reachable through `add_knowledge` calls alone (with any reported
counts): on every normally returning path the known-mine set stays
empty, since the only calls of the base-level `mark_mine` sit in the
resolution loop that raises before completing. -/
theorem C5_reachable_disjoint (st : AIState) (h : Reachable st) :
    st.safes ∩ st.mines = ∅ := by
  rw [reachable_mines_empty st h]
  exact Finset.inter_empty _

/-- Witness for C5: the fresh 8×8 agent. -/
theorem C5_reachable_disjoint_witness :
    (MinesweeperAI.initial 8 8).safes ∩ (MinesweeperAI.initial 8 8).mines = ∅ :=
  C5_reachable_disjoint _ (Reachable.start 8 8)

/-- C6: repeating `add_knowledge((8,8), 1)` on the state the first call
returned is not a no-op: both calls return normally, `moves_made`,
`safes` and `mines` are unchanged, but the second call's inference
pass now takes the first call's derived sentence `{(0,2),(0,3)}=1` as
an outer element, pairs it with `{(0,2),(0,3),(0,4),(0,5)}=2`, and
appends the new sentence `{(0,4),(0,5)}=1` — the knowledge collection
grows. -/
theorem C6_repeat_call_changes_knowledge :
    MinesweeperAI.add_knowledge stC6 ((8:ℤ),(8:ℤ)) 1 = .ok stC6a ∧
    MinesweeperAI.add_knowledge stC6a ((8:ℤ),(8:ℤ)) 1 = .ok stC6b ∧
    stC6a.knowledge ≠ stC6b.knowledge ∧
    stC6a.moves_made = stC6b.moves_made ∧
    stC6a.safes = stC6b.safes ∧
    stC6a.mines = stC6b.mines := by decide

/-- C7 (counterexample): `infer_new_sentences` has no emptiness check:
from the two sentences `{(0,0)}=1` and `{(0,0)}=2` (equal cell sets,
different counts) it appends the derived sentence `∅ = 1`, whose cell
set is empty. -/
theorem C7_empty_cell_set_appended :
    (⟨(∅ : Finset Cell), 1⟩ : Sentence) ∈
      (MinesweeperAI.infer_new_sentences stC7).knowledge := by decide

/-- C7 (amended): the duplicate half of the claim holds:
`infer_new_sentences` appends a derived sentence only when no
structurally equal sentence is already in the collection, so a
duplicate-free collection stays duplicate-free. -/
theorem C7_no_duplicate_append (st : AIState) (h : st.knowledge.Nodup) :
    (MinesweeperAI.infer_new_sentences st).knowledge.Nodup :=
  inferOuter_nodup st.knowledge st.knowledge h

/-- Witness for C7: the pass on `stC7` keeps its collection
duplicate-free. -/
theorem C7_no_duplicate_append_witness :
    (MinesweeperAI.infer_new_sentences stC7).knowledge.Nodup :=
  C7_no_duplicate_append stC7 (by decide)

/-- C8: immediately after the base-level `mark_mine(c)` or
`mark_safe(c)`, the cell `c` is absent from the cell set of every
sentence in the knowledge collection: both methods call the sentence
mutator on every sentence, and the mutator removes the cell whenever
it is a member. -/
theorem C8_marked_cell_absent (st : AIState) (cell : Cell) (s : Sentence) :
    (s ∈ (MinesweeperAI.mark_mine st cell).knowledge → cell ∉ s.cells) ∧
    (s ∈ (MinesweeperAI.mark_safe st cell).knowledge → cell ∉ s.cells) := by
  constructor
  · intro hs
    obtain ⟨t, ht, rfl⟩ := List.mem_map.mp hs
    rw [Sentence.mark_mine]
    split
    · exact Finset.not_mem_erase cell t.cells
    · next hnot => exact hnot
  · intro hs
    obtain ⟨t, ht, rfl⟩ := List.mem_map.mp hs
    rw [Sentence.mark_safe]
    split
    · exact Finset.not_mem_erase cell t.cells
    · next hnot => exact hnot

/-- Witness for C8: marking `(0,0)` in `stC3` leaves it in no
sentence. -/
theorem C8_marked_cell_absent_witness :
    ((0:ℤ),(0:ℤ)) ∉ (Sentence.mk (∅ : Finset Cell) 0).cells ∧
    ((0:ℤ),(0:ℤ)) ∉ (Sentence.mk (∅ : Finset Cell) 1).cells :=
  ⟨(C8_marked_cell_absent stC3 ((0:ℤ),(0:ℤ)) ⟨∅, 0⟩).1 (by decide),
   (C8_marked_cell_absent stC3 ((0:ℤ),(0:ℤ)) ⟨∅, 1⟩).2 (by decide)⟩

/-- C9: for every state and every random draw, `make_random_move`
returns either `None` or a cell of the board that is neither in
`moves_made` nor in `mines`; and it returns `None` exactly when every
board cell is in `moves_made` or in `mines` (i.e. when the difference
set is empty). -/
theorem C9_random_move_unplayed_unmined (st : AIState) (k : ℕ) :
    (∀ c : Cell, (MinesweeperAI.make_random_move k st).2 = some c →
      (0 ≤ c.1 ∧ c.1 < st.height ∧ 0 ≤ c.2 ∧ c.2 < st.width) ∧
      c ∉ st.moves_made ∧ c ∉ st.mines) ∧
    ((MinesweeperAI.make_random_move k st).2 = none ↔
      ∀ c ∈ allCellsList st.height st.width,
        c ∈ st.moves_made ∨ c ∈ st.mines) := by
  constructor
  · intro c hc
    simp only [MinesweeperAI.make_random_move] at hc
    split at hc
    · cases hc
    · next h0 =>
        have hcm : c ∈ MinesweeperAI.possibleMoves st := by
          rw [← Option.some.inj hc]
          exact List.get_mem _ _ _
        obtain ⟨hcall, hmv, hmn⟩ := (mem_possibleMoves st c).mp hcm
        exact ⟨(mem_allCellsList st.height st.width c).mp hcall, hmv, hmn⟩
  · rw [make_random_move_none_iff]
    constructor
    · intro hnil c hcall
      by_contra hcon
      push_neg at hcon
      have hcm := (mem_possibleMoves st c).mpr ⟨hcall, hcon.1, hcon.2⟩
      rw [hnil] at hcm
      cases hcm
    · intro hall
      by_contra hne
      obtain ⟨c, hcm⟩ := List.exists_mem_of_ne_nil _ hne
      obtain ⟨hcall, hmv, hmn⟩ := (mem_possibleMoves st c).mp hcm
      rcases hall c hcall with hx | hx
      · exact hmv hx
      · exact hmn hx

/-- Witness for C9: on `stC9` with draw `5`, the returned cell `(1,0)`
is in bounds, unplayed and not a known mine. -/
theorem C9_random_move_unplayed_unmined_witness :
    (0 ≤ ((1:ℤ),(0:ℤ)).1 ∧ ((1:ℤ),(0:ℤ)).1 < stC9.height ∧
      0 ≤ ((1:ℤ),(0:ℤ)).2 ∧ ((1:ℤ),(0:ℤ)).2 < stC9.width) ∧
    ((1:ℤ),(0:ℤ)) ∉ stC9.moves_made ∧ ((1:ℤ),(0:ℤ)) ∉ stC9.mines :=
  (C9_random_move_unplayed_unmined stC9 5).1 ((1:ℤ),(0:ℤ)) (by decide)

/-- C10: the move selectors are pure queries — `make_safe_move` and
`make_random_move` perform no assignment, so the state they return is
the state they were given, with `moves_made`, `safes`, `mines` and the
knowledge collection (every sentence included) untouched. -/
theorem C10_move_selectors_pure (order : Finset Cell → List Cell)
    (st : AIState) (k : ℕ) :
    (MinesweeperAI.make_safe_move order st).1 = st ∧
    (MinesweeperAI.make_random_move k st).1 = st :=
  ⟨rfl, rfl⟩
